import Mathlib

set_option maxHeartbeats 1000000

namespace ClanInfo

/-! Embedding of `src/claninfo.py`: the JSON flattener `_flatten_json`, the
retry loop of `fetch_clan_data_auto_tables`, the clan-tag URL construction,
and the filename sanitization of `save_tables_to_csv`. -/

/-- JSON values as received from the API: scalars (strings, numbers, booleans,
null), ordered objects (key-value lists, Python `dict` iteration order), and
ordered arrays. -/
inductive Json where
  | str (v : String)
  | num (v : Int)
  | bool (v : Bool)
  | null
  | obj (fields : List (String × Json))
  | arr (items : List Json)

/-- The test `isinstance(v, (dict, list))` of `_flatten_json`. -/
def Json.isNested : Json → Bool
  | .obj _ => true
  | .arr _ => true
  | _ => false

/-- A row: mapping of field name to scalar value in insertion order, as built
by `row[k] = v` in `_flatten_json`. -/
abbrev Row := List (String × Json)

/-- The output mapping of `_flatten_json`: table name to ordered bucket of
rows, keys in insertion order (Python `defaultdict(list)`). -/
abbrev Tables := List (String × List Row)

/-- The statement `out[key].append(row)` on a `defaultdict(list)`: append to
the existing bucket, or create the key (at the end, in insertion order) with a
singleton bucket. -/
def appendRow : Tables → String → Row → Tables
  | [], key, row => [(key, [row])]
  | (k, rs) :: rest, key, row =>
      if k = key then (k, rs ++ [row]) :: rest
      else (k, rs) :: appendRow rest key row

mutual

/-- The function `_flatten_json(obj, parent_key, out)` from src/claninfo.py:
an object builds a row from its scalar fields (appended to bucket
`parent_key` when non-empty) after recursing into nested fields at
`parent_key.k`; an array recurses into each element at the same path;
a scalar leaves `out` unchanged. -/
def flattenJson : Json → String → Tables → Tables
  | .obj fields, parentKey, out =>
      let p := flattenFields fields parentKey out
      if p.2.isEmpty then p.1 else appendRow p.1 parentKey p.2
  | .arr items, parentKey, out => flattenList items parentKey out
  | _, _, out => out

/-- The loop `for k, v in obj.items()` of `_flatten_json`: threads `out`
through nested recursions and collects the scalar fields into the row, in key
order. -/
def flattenFields : List (String × Json) → String → Tables → Tables × Row
  | [], _, out => (out, [])
  | (k, v) :: rest, parentKey, out =>
      if v.isNested then
        flattenFields rest parentKey (flattenJson v (parentKey ++ "." ++ k) out)
      else
        let p := flattenFields rest parentKey out
        (p.1, (k, v) :: p.2)

/-- The loop `for item in obj` of `_flatten_json` on a list: recurse into each
element with the same path label. -/
def flattenList : List Json → String → Tables → Tables
  | [], _, out => out
  | item :: rest, parentKey, out =>
      flattenList rest parentKey (flattenJson item parentKey out)

end

/-- The call `_flatten_json(data)` with the default starting path `"root"`
and a fresh output mapping. -/
def flattenRoot (j : Json) : Tables :=
  flattenJson j "root" []

/-! Helper lemmas about the flattener. -/

/-- A run of scalar-only fields contributes nothing to `out` and is returned
verbatim as the head of the row. -/
theorem flattenFields_scalar_append (pre : List (String × Json))
    (rest : List (String × Json)) (p : String) (out : Tables)
    (hs : ∀ kv ∈ pre, kv.2.isNested = false) :
    flattenFields (pre ++ rest) p out =
      ((flattenFields rest p out).1, pre ++ (flattenFields rest p out).2) := by
  induction pre with
  | nil => simp
  | cons hd tl ih =>
    obtain ⟨k, v⟩ := hd
    have hv : v.isNested = false := hs (k, v) (List.mem_cons_self _ _)
    have htl : ∀ kv ∈ tl, kv.2.isNested = false :=
      fun kv hkv => hs kv (List.mem_cons_of_mem _ hkv)
    simp [flattenFields, hv, ih htl]

/-- Specialization: scalar-only fields leave `out` unchanged and return the
field list itself as the row. -/
theorem flattenFields_scalar (fields : List (String × Json)) (p : String)
    (out : Tables) (hs : ∀ kv ∈ fields, kv.2.isNested = false) :
    flattenFields fields p out = (out, fields) := by
  have := flattenFields_scalar_append fields [] p out hs
  simpa [flattenFields] using this

/-- Appending a row at an existing (unique, final) key extends that bucket. -/
theorem appendRow_last (p : String) (rows : List Row) (row : Row) :
    appendRow [(p, rows)] p row = [(p, rows ++ [row])] := by
  simp [appendRow]

/-- Flattening a list of non-empty scalar-only objects at path `p` appends
each object, in order, to the bucket `p`. -/
theorem flattenList_scalarObjs (items : List Row) (p : String)
    (h : ∀ g ∈ items, g ≠ [] ∧ ∀ kv ∈ g, kv.2.isNested = false) :
    ∀ rows, flattenList (items.map Json.obj) p [(p, rows)] =
      [(p, rows ++ items)] := by
  induction items with
  | nil => intro rows; simp [flattenList]
  | cons g rest ih =>
    intro rows
    have hg := h g (List.mem_cons_self _ _)
    have hrest : ∀ g ∈ rest, g ≠ [] ∧ ∀ kv ∈ g, kv.2.isNested = false :=
      fun x hx => h x (List.mem_cons_of_mem _ hx)
    have hne : g.isEmpty = false := by
      cases g with
      | nil => exact absurd rfl hg.1
      | cons a l => simp
    simp only [List.map_cons, flattenList, flattenJson,
      flattenFields_scalar g p [(p, rows)] hg.2, hne, Bool.false_eq_true,
      if_false, appendRow_last]
    rw [ih hrest (rows ++ [g])]
    simp

/-- Flattening a non-empty list of non-empty scalar-only objects into a fresh
mapping produces the single bucket `p` holding exactly those objects. -/
theorem flattenList_scalarObjs_nil (items : List Row) (p : String)
    (h : ∀ g ∈ items, g ≠ [] ∧ ∀ kv ∈ g, kv.2.isNested = false)
    (hne : items ≠ []) :
    flattenList (items.map Json.obj) p [] = [(p, items)] := by
  cases items with
  | nil => exact absurd rfl hne
  | cons g rest =>
    have hg := h g (List.mem_cons_self _ _)
    have hrest : ∀ x ∈ rest, x ≠ [] ∧ ∀ kv ∈ x, kv.2.isNested = false :=
      fun x hx => h x (List.mem_cons_of_mem _ hx)
    have hge : g.isEmpty = false := by
      cases g with
      | nil => exact absurd rfl hg.1
      | cons a l => simp
    simp only [List.map_cons, flattenList, flattenJson,
      flattenFields_scalar g p [] hg.2, hge, Bool.false_eq_true, if_false]
    have : appendRow [] p g = [(p, [g])] := by simp [appendRow]
    rw [this, flattenList_scalarObjs rest p hrest [g]]
    simp

/-- Dot-extended paths are never equal to their parent path: `p ++ "." ++ k`
is strictly longer than `p`. -/
theorem dotted_ne (p k : String) : p ++ "." ++ k ≠ p := by
  intro h
  have hd := congrArg String.data h
  simp only [String.data_append] at hd
  have := congrArg List.length hd
  simp at this

/-- The table name of a nested field is never the root table name. -/
theorem rootDot_ne (f : String) : "root." ++ f ≠ "root" := by
  intro h
  have hd := congrArg String.data h
  rw [String.data_append] at hd
  have hlen := congrArg List.length hd
  rw [List.length_append] at hlen
  have h5 : ("root.".data).length = 5 := rfl
  have h4 : ("root".data).length = 4 := rfl
  omega

/- ------------------------------------------------------------------ -/
/-! Claim C1: flattening a scalar-only object. -/

/-- C1 (amended): for every NON-EMPTY JSON object whose fields are all
scalar-valued, flattening with the default starting path yields exactly the
mapping with one table `root` whose bucket holds the one row equal to the
input object (same keys, same values, same key order). -/
theorem flattenRoot_scalar_object (fields : List (String × Json))
    (hne : fields ≠ [])
    (hs : ∀ kv ∈ fields, kv.2.isNested = false) :
    flattenRoot (Json.obj fields) = [("root", [fields])] := by
  have hfe : fields.isEmpty = false := by
    cases fields with
    | nil => exact absurd rfl hne
    | cons a l => simp
  simp only [flattenRoot, flattenJson, flattenFields_scalar fields "root" [] hs,
    hfe, Bool.false_eq_true, if_false]
  simp [appendRow]

/-- C1 witness: the object `{"a": 1, "b": "x"}` is non-empty with all scalar
fields, and flattens to one table `root` with the one row equal to the
object. -/
theorem flattenRoot_scalar_object_witness :
    (([("a", Json.num 1), ("b", Json.str "x")] : List (String × Json)) ≠ []) ∧
    (∀ kv ∈ ([("a", Json.num 1), ("b", Json.str "x")] : List (String × Json)),
      kv.2.isNested = false) ∧
    flattenRoot (Json.obj [("a", Json.num 1), ("b", Json.str "x")]) =
      [("root", [[("a", Json.num 1), ("b", Json.str "x")]])] := by
  have hne :
      ([("a", Json.num 1), ("b", Json.str "x")] : List (String × Json)) ≠ [] :=
    by simp
  have hs : ∀ kv ∈ ([("a", Json.num 1), ("b", Json.str "x")] :
      List (String × Json)), kv.2.isNested = false := by
    intro kv hkv; fin_cases hkv <;> rfl
  exact ⟨hne, hs, flattenRoot_scalar_object _ hne hs⟩

/-- C1 counterexample: the empty object `{}` has all fields scalar-valued
(vacuously), yet flattening yields an empty mapping — not one table `root`
with one row equal to the (empty) object. -/
theorem flattenRoot_empty_object_counterexample :
    flattenRoot (Json.obj []) ≠ [("root", [([] : Row)])] :=
  fun h => List.noConfusion h

/- ------------------------------------------------------------------ -/
/-! Claim C2: flattening an object with an array-valued field. -/

/-- C2 (amended): for an object consisting of scalar fields `pre`, an
array-valued field `f` holding N (≥ 1) NON-EMPTY scalar-only objects, and
scalar fields `post`, flattening yields the table `root.f` with exactly those
N rows in array order, plus — exactly when some scalar field remains — a
`root` table holding the one row of the remaining scalar fields. -/
theorem flattenRoot_array_field (pre post : List (String × Json)) (f : String)
    (items : List Row)
    (hpre : ∀ kv ∈ pre, kv.2.isNested = false)
    (hpost : ∀ kv ∈ post, kv.2.isNested = false)
    (hitems : ∀ g ∈ items, g ≠ [] ∧ ∀ kv ∈ g, kv.2.isNested = false)
    (hne : items ≠ []) :
    flattenRoot (Json.obj (pre ++ (f, Json.arr (items.map Json.obj)) :: post)) =
      if (pre ++ post).isEmpty then [("root" ++ "." ++ f, items)]
      else [("root" ++ "." ++ f, items), ("root", [pre ++ post])] := by
  have harr : flattenFields ((f, Json.arr (items.map Json.obj)) :: post) "root" [] =
      ([("root" ++ "." ++ f, items)], post) := by
    simp only [flattenFields, Json.isNested, if_true]
    rw [show flattenJson (Json.arr (items.map Json.obj)) ("root" ++ "." ++ f) [] =
          flattenList (items.map Json.obj) ("root" ++ "." ++ f) [] from rfl,
      flattenList_scalarObjs_nil items _ hitems hne,
      flattenFields_scalar post "root" _ hpost]
  have hfull : flattenFields (pre ++ (f, Json.arr (items.map Json.obj)) :: post)
      "root" [] = ([("root" ++ "." ++ f, items)], pre ++ post) := by
    rw [flattenFields_scalar_append pre _ "root" [] hpre, harr]
  simp only [flattenRoot, flattenJson, hfull]
  cases hc : (pre ++ post).isEmpty with
  | true => simp [hc]
  | false => simp [hc, appendRow, rootDot_ne f]

/-- C2 witness: `{"x": 1, "members": [{"n": 1}, {"n": 2}], "y": 2}` — the
array field holds two non-empty scalar-only objects and the other fields are
scalar — yields table `root.members` with the two element rows in order, and
table `root` with the row of the remaining scalar fields. -/
theorem flattenRoot_array_field_witness :
    (∀ kv ∈ ([("x", Json.num 1)] : List (String × Json)),
      kv.2.isNested = false) ∧
    (∀ kv ∈ ([("y", Json.num 2)] : List (String × Json)),
      kv.2.isNested = false) ∧
    (∀ g ∈ ([[("n", Json.num 1)], [("n", Json.num 2)]] : List Row),
      g ≠ [] ∧ ∀ kv ∈ g, kv.2.isNested = false) ∧
    (([[("n", Json.num 1)], [("n", Json.num 2)]] : List Row) ≠ []) ∧
    flattenRoot (Json.obj [("x", Json.num 1),
        ("members", Json.arr [Json.obj [("n", Json.num 1)],
                              Json.obj [("n", Json.num 2)]]),
        ("y", Json.num 2)]) =
      [("root" ++ "." ++ "members", [[("n", Json.num 1)], [("n", Json.num 2)]]),
       ("root", [[("x", Json.num 1), ("y", Json.num 2)]])] := by
  have hpre : ∀ kv ∈ ([("x", Json.num 1)] : List (String × Json)),
      kv.2.isNested = false := by
    intro kv hkv
    simp only [List.mem_cons, List.not_mem_nil, or_false] at hkv
    subst hkv; rfl
  have hpost : ∀ kv ∈ ([("y", Json.num 2)] : List (String × Json)),
      kv.2.isNested = false := by
    intro kv hkv
    simp only [List.mem_cons, List.not_mem_nil, or_false] at hkv
    subst hkv; rfl
  have hitems : ∀ g ∈ ([[("n", Json.num 1)], [("n", Json.num 2)]] : List Row),
      g ≠ [] ∧ ∀ kv ∈ g, kv.2.isNested = false := by
    intro g hg
    simp only [List.mem_cons, List.not_mem_nil, or_false] at hg
    rcases hg with rfl | rfl <;>
      exact ⟨by simp, by
        intro kv hkv
        simp only [List.mem_cons, List.not_mem_nil, or_false] at hkv
        subst hkv; rfl⟩
  have hne : ([[("n", Json.num 1)], [("n", Json.num 2)]] : List Row) ≠ [] :=
    by simp
  refine ⟨hpre, hpost, hitems, hne, ?_⟩
  have := flattenRoot_array_field [("x", Json.num 1)] [("y", Json.num 2)]
    "members" [[("n", Json.num 1)], [("n", Json.num 2)]]
    hpre hpost hitems hne
  simpa using this

/-- C2 counterexample: `{"a": [{}]}` has an array-valued field holding one
scalar-only (empty) object, yet flattening yields an empty mapping — not a
table `root.a` with exactly one row. -/
theorem flattenRoot_array_field_counterexample :
    flattenRoot (Json.obj [("a", Json.arr [Json.obj []])]) ≠
      [("root.a", [([] : Row)])] :=
  fun h => List.noConfusion h

/- ------------------------------------------------------------------ -/
/-! Claim C3: table names are dot-joined nesting paths. -/

mutual

/-- Modelled from the spec wording: the dot-joined path strings reachable in a
JSON value started at path `p` — descending into a nested object appends
`.key` to the parent path, array traversal reuses the array's own path
unchanged, and an object may name its own path. -/
def specTablePaths : Json → String → List String
  | .obj fields, p => p :: specTablePathsFields fields p
  | .arr items, p => specTablePathsList items p
  | _, _ => []

/-- Paths contributed by the fields of an object at path `p`. -/
def specTablePathsFields : List (String × Json) → String → List String
  | [], _ => []
  | (k, v) :: rest, p =>
      (if v.isNested then specTablePaths v (p ++ "." ++ k) else [])
        ++ specTablePathsFields rest p

/-- Paths contributed by the elements of an array at path `p`. -/
def specTablePathsList : List Json → String → List String
  | [], _ => []
  | item :: rest, p => specTablePaths item p ++ specTablePathsList rest p

end

/-- Table names after an `appendRow` are the old names or the appended key. -/
theorem mem_keys_appendRow {out : Tables} {key n : String} {row : Row}
    (h : n ∈ (appendRow out key row).map Prod.fst) :
    n ∈ out.map Prod.fst ∨ n = key := by
  induction out with
  | nil =>
    simp [appendRow] at h
    exact Or.inr h
  | cons hd tl ih =>
    obtain ⟨k, rs⟩ := hd
    simp only [appendRow] at h
    by_cases hk : k = key
    · rw [if_pos hk] at h
      simp only [List.map_cons, List.mem_cons] at h ⊢
      rcases h with h | h
      · exact Or.inl (Or.inl h)
      · exact Or.inl (Or.inr h)
    · rw [if_neg hk] at h
      simp only [List.map_cons, List.mem_cons] at h ⊢
      rcases h with h | h
      · exact Or.inl (Or.inl h)
      · rcases ih h with h1 | h1
        · exact Or.inl (Or.inr h1)
        · exact Or.inr h1

mutual

/-- Every table name produced by `flattenJson` either was already in `out` or
is one of the dot-joined nesting paths of the input at the starting path. -/
theorem mem_keys_flattenJson : ∀ (j : Json) (p : String) (out : Tables)
    (n : String), n ∈ (flattenJson j p out).map Prod.fst →
    n ∈ out.map Prod.fst ∨ n ∈ specTablePaths j p
  | .obj fields, p, out, n, h => by
    simp only [flattenJson] at h
    by_cases hc : (flattenFields fields p out).2.isEmpty
    · rw [if_pos hc] at h
      rcases mem_keys_flattenFields fields p out n h with h1 | h1
      · exact Or.inl h1
      · exact Or.inr (List.mem_cons_of_mem _ h1)
    · rw [if_neg hc] at h
      rcases mem_keys_appendRow h with h1 | h1
      · rcases mem_keys_flattenFields fields p out n h1 with h2 | h2
        · exact Or.inl h2
        · exact Or.inr (List.mem_cons_of_mem _ h2)
      · subst h1
        exact Or.inr (List.mem_cons_self _ _)
  | .arr items, p, out, n, h => mem_keys_flattenList items p out n h
  | .str _, _, _, _, h => Or.inl h
  | .num _, _, _, _, h => Or.inl h
  | .bool _, _, _, _, h => Or.inl h
  | .null, _, _, _, h => Or.inl h

/-- Field-loop version of `mem_keys_flattenJson`. -/
theorem mem_keys_flattenFields : ∀ (fields : List (String × Json)) (p : String)
    (out : Tables) (n : String),
    n ∈ ((flattenFields fields p out).1).map Prod.fst →
    n ∈ out.map Prod.fst ∨ n ∈ specTablePathsFields fields p
  | [], _, out, n, h => Or.inl h
  | (k, v) :: rest, p, out, n, h => by
    simp only [flattenFields] at h
    by_cases hv : v.isNested
    · rw [if_pos hv] at h
      rcases mem_keys_flattenFields rest p _ n h with h1 | h1
      · rcases mem_keys_flattenJson v (p ++ "." ++ k) out n h1 with h2 | h2
        · exact Or.inl h2
        · refine Or.inr ?_
          simp only [specTablePathsFields, hv, if_true, List.mem_append]
          exact Or.inl h2
      · refine Or.inr ?_
        simp only [specTablePathsFields, List.mem_append]
        exact Or.inr h1
    · rw [if_neg hv] at h
      rcases mem_keys_flattenFields rest p out n h with h1 | h1
      · exact Or.inl h1
      · refine Or.inr ?_
        simp only [specTablePathsFields, List.mem_append]
        exact Or.inr h1

/-- Array-loop version of `mem_keys_flattenJson`. -/
theorem mem_keys_flattenList : ∀ (items : List Json) (p : String)
    (out : Tables) (n : String),
    n ∈ (flattenList items p out).map Prod.fst →
    n ∈ out.map Prod.fst ∨ n ∈ specTablePathsList items p
  | [], _, _, _, h => Or.inl h
  | item :: rest, p, out, n, h => by
    rcases mem_keys_flattenList rest p _ n h with h1 | h1
    · rcases mem_keys_flattenJson item p out n h1 with h2 | h2
      · exact Or.inl h2
      · refine Or.inr ?_
        simp only [specTablePathsList, List.mem_append]
        exact Or.inl h2
    · refine Or.inr ?_
      simp only [specTablePathsList, List.mem_append]
      exact Or.inr h1

end

/-- C3: every table name produced by the flattener on a fresh mapping is a
dot-joined path of object keys descended through — descending into a nested
object appends `.key`, array traversal reuses the array's own path label
unchanged. -/
theorem flattenRoot_table_names (j : Json) (n : String)
    (h : n ∈ (flattenRoot j).map Prod.fst) :
    n ∈ specTablePaths j "root" := by
  rcases mem_keys_flattenJson j "root" [] n h with h1 | h1
  · simp at h1
  · exact h1

/-- C3 witness: the 3-level nested object
`{"a": {"b": {"c": 1}}}` produces the table name `root.a.b`, which is the
exact dot-joined nesting path. -/
theorem flattenRoot_table_names_witness :
    "root.a.b" ∈ (flattenRoot (Json.obj
      [("a", Json.obj [("b", Json.obj [("c", Json.num 1)])])])).map Prod.fst ∧
    "root.a.b" ∈ specTablePaths
      (Json.obj [("a", Json.obj [("b", Json.obj [("c", Json.num 1)])])])
      "root" := by
  have hmem : "root.a.b" ∈ (flattenRoot (Json.obj
      [("a", Json.obj [("b", Json.obj [("c", Json.num 1)])])])).map
        Prod.fst := by
    have h : (flattenRoot (Json.obj
        [("a", Json.obj [("b", Json.obj [("c", Json.num 1)])])])).map
          Prod.fst = ["root.a.b"] := rfl
    rw [h]
    exact List.mem_singleton.mpr rfl
  exact ⟨hmem, flattenRoot_table_names _ "root.a.b" hmem⟩

/- ------------------------------------------------------------------ -/
/-! Claim C9: the flattener never produces empty buckets or empty rows. -/

/-- Invariant: every bucket is non-empty and every row is non-empty. -/
def TablesInv (out : Tables) : Prop :=
  ∀ p ∈ out, p.2 ≠ [] ∧ ∀ r ∈ p.2, r ≠ []

/-- Appending a non-empty row preserves the invariant. -/
theorem tablesInv_appendRow {out : Tables} {key : String} {row : Row}
    (h : TablesInv out) (hrow : row ≠ []) :
    TablesInv (appendRow out key row) := by
  induction out with
  | nil =>
    intro p hp
    simp [appendRow] at hp
    subst hp
    simp [hrow]
  | cons hd tl ih =>
    obtain ⟨k, rs⟩ := hd
    simp only [appendRow]
    split
    · intro p hp
      rcases List.mem_cons.1 hp with h1 | h1
      · subst h1
        refine ⟨by simp, ?_⟩
        intro r hr
        rcases List.mem_append.1 hr with h2 | h2
        · exact ((h _ (List.mem_cons_self _ _)).2) r h2
        · simp at h2; subst h2; exact hrow
      · exact h _ (List.mem_cons_of_mem _ h1)
    · intro p hp
      rcases List.mem_cons.1 hp with h1 | h1
      · subst h1; exact h _ (List.mem_cons_self _ _)
      · exact ih (fun q hq => h q (List.mem_cons_of_mem _ hq)) _ h1

mutual

/-- `flattenJson` preserves the non-empty-bucket / non-empty-row invariant. -/
theorem tablesInv_flattenJson : ∀ (j : Json) (p : String) (out : Tables),
    TablesInv out → TablesInv (flattenJson j p out)
  | .obj fields, p, out, h => by
    simp only [flattenJson]
    have hf := tablesInv_flattenFields fields p out h
    split
    · exact hf
    · exact tablesInv_appendRow hf (by
        rename_i hne
        simpa [List.isEmpty_iff] using hne)
  | .arr items, p, out, h => tablesInv_flattenList items p out h
  | .str _, _, _, h => h
  | .num _, _, _, h => h
  | .bool _, _, _, h => h
  | .null, _, _, h => h

/-- Field-loop version of `tablesInv_flattenJson`. -/
theorem tablesInv_flattenFields : ∀ (fields : List (String × Json))
    (p : String) (out : Tables),
    TablesInv out → TablesInv (flattenFields fields p out).1
  | [], _, out, h => h
  | (k, v) :: rest, p, out, h => by
    simp only [flattenFields]
    split
    · exact tablesInv_flattenFields rest p _ (tablesInv_flattenJson v _ out h)
    · exact tablesInv_flattenFields rest p out h

/-- Array-loop version of `tablesInv_flattenJson`. -/
theorem tablesInv_flattenList : ∀ (items : List Json) (p : String)
    (out : Tables), TablesInv out → TablesInv (flattenList items p out)
  | [], _, _, h => h
  | item :: rest, p, out, h =>
    tablesInv_flattenList rest p _ (tablesInv_flattenJson item p out h)

end

/-- C9: for every JSON input, every table present in the flattener's output
has a non-empty bucket and every row in it is non-empty, so the writer's
empty-table skip branch is never taken for flattener-produced tables. -/
theorem flattenRoot_no_empty (j : Json) (name : String) (rows : List Row)
    (h : (name, rows) ∈ flattenRoot j) :
    rows ≠ [] ∧ ∀ r ∈ rows, r ≠ [] := by
  have hinv : TablesInv (flattenRoot j) :=
    tablesInv_flattenJson j "root" [] (by intro p hp; simp at hp)
  exact hinv (name, rows) h

/-- C9 witness: the single table produced for `{"a": 1}` has a non-empty
bucket whose only row is non-empty. -/
theorem flattenRoot_no_empty_witness :
    ("root", [[("a", Json.num 1)]]) ∈
      flattenRoot (Json.obj [("a", Json.num 1)]) ∧
    (([[("a", Json.num 1)]] : List Row) ≠ [] ∧
      ∀ r ∈ ([[("a", Json.num 1)]] : List Row), r ≠ []) := by
  have hmem : ("root", [[("a", Json.num 1)]]) ∈
      flattenRoot (Json.obj [("a", Json.num 1)]) := by
    have h : flattenRoot (Json.obj [("a", Json.num 1)]) =
        [("root", [[("a", Json.num 1)]])] := rfl
    rw [h]
    exact List.mem_singleton.mpr rfl
  exact ⟨hmem, flattenRoot_no_empty (Json.obj [("a", Json.num 1)]) "root"
    [[("a", Json.num 1)]] hmem⟩

/- ------------------------------------------------------------------ -/
/-! Claim C4: clan-lookup URL construction. Strings are modelled as lists of
characters; `tag.replace('#', '').upper()` removes every `'#'` and uppercases
the remaining characters. -/

/-- The expression `tag.replace('#', '').upper()` from
`fetch_clan_data_auto_tables`: drop every `'#'` character (wherever it
occurs), then uppercase each remaining character. -/
def cleanTag (tag : List Char) : List Char :=
  (tag.filter (fun c => c ≠ '#')).map Char.toUpper

/-- The fixed clan-lookup URL template up to the interpolated tag; `%23` is
the percent-encoded `'#'` written literally in the template. -/
def clanUrlBase : List Char :=
  "https://api.clashroyale.com/v1/clans/%23".data

/-- The f-string `f"https://api.clashroyale.com/v1/clans/%23{clan_tag_clean}"`
from `fetch_clan_data_auto_tables`. -/
def buildClanUrl (clanTag : List Char) : List Char :=
  clanUrlBase ++ cleanTag clanTag

/-- Modelled from the spec's words for claim C4: strip a LEADING marker
character `'#'` only, uppercase, and splice into the template — characters
other than a leading `'#'` preserved apart from case. -/
def specBuildClanUrl (clanTag : List Char) : List Char :=
  clanUrlBase ++
    (match clanTag with
     | '#' :: rest => rest.map Char.toUpper
     | s => s.map Char.toUpper)

/-- Filtering out `'#'` is the identity on `'#'`-free character lists. -/
theorem filter_ne_hash_eq_self (t : List Char) (ht : '#' ∉ t) :
    t.filter (fun c => c ≠ '#') = t := by
  induction t with
  | nil => rfl
  | cons c cs ih =>
    have hc : c ≠ '#' := fun h => ht (by simp [h])
    have hcs : '#' ∉ cs := fun h => ht (List.mem_cons_of_mem _ h)
    rw [List.filter_cons, if_pos (by simp [hc]), ih hcs]

/-- C4 (amended): the Fetcher removes EVERY `'#'` from the clan identifier —
not only a leading one — uppercases the remaining characters, and splices the
result into the fixed clan-lookup template; on identifiers with no interior
`'#'` this agrees with stripping just the leading marker. -/
theorem buildClanUrl_spec (a b t : List Char) (ht : '#' ∉ t) :
    buildClanUrl (a ++ '#' :: b) = buildClanUrl (a ++ b) ∧
    buildClanUrl ('#' :: t) = clanUrlBase ++ t.map Char.toUpper ∧
    buildClanUrl t = clanUrlBase ++ t.map Char.toUpper := by
  have hhead : List.filter (fun c => c ≠ '#') ('#' :: t) =
      List.filter (fun c => c ≠ '#') t := by
    rw [List.filter_cons, if_neg (by simp)]
  refine ⟨?_, ?_, ?_⟩
  · unfold buildClanUrl cleanTag
    rw [List.filter_append, List.filter_append, List.filter_cons,
      if_neg (by simp)]
  · unfold buildClanUrl cleanTag
    rw [hhead, filter_ne_hash_eq_self t ht]
  · unfold buildClanUrl cleanTag
    rw [filter_ne_hash_eq_self t ht]

/-- C4 witness: `"#2abc"` yields the template followed by `2ABC`, identically
whether all `'#'` or only the leading `'#'` is stripped. -/
theorem buildClanUrl_spec_witness :
    ('#' ∉ "2abc".data) ∧
    (buildClanUrl ("x".data ++ '#' :: "y".data) =
      buildClanUrl ("x".data ++ "y".data) ∧
     buildClanUrl ('#' :: "2abc".data) =
      clanUrlBase ++ "2abc".data.map Char.toUpper ∧
     buildClanUrl "2abc".data =
      clanUrlBase ++ "2abc".data.map Char.toUpper) :=
  ⟨by decide, buildClanUrl_spec "x".data "y".data "2abc".data (by decide)⟩

/-- C4 counterexample: on the identifier `"A#B"`, whose `'#'` is not leading,
the code removes the interior `'#'` (producing `...%23AB`) while the claim
demands it be preserved (producing `...%23A#B`). -/
theorem buildClanUrl_counterexample :
    buildClanUrl "A#B".data ≠ specBuildClanUrl "A#B".data := by decide

/- ------------------------------------------------------------------ -/
/-! The retry loop of `fetch_clan_data_auto_tables`, simulated over a script
of HTTP responses and network exceptions. Backoff waits `factor ** attempt`
are modelled over the rationals. -/

/-- A simulated HTTP response: status code, raw body text, and the value the
body parses to as JSON (consulted only on status 200). -/
structure Response where
  status : Nat
  text : List Char
  body : Json

/-- One simulated transport event per attempt: either a response or a
network-level exception (`requests.exceptions.RequestException`). -/
inductive Event where
  | resp (r : Response)
  | netExn

/-- Terminal outcome of the retry loop, with the recorded sleep durations in
order: success returns the flattened tables; a hard failure carries the
status and the body excerpt; exhaustion is the final `RuntimeError` after the
attempt ceiling. `scriptEnded` is a simulation-only artifact for scripts
shorter than the number of attempts. -/
inductive FetchOutcome where
  | success (tables : Tables) (sleeps : List ℚ)
  | hardFail (status : Nat) (excerpt : List Char) (sleeps : List ℚ)
  | exhausted (sleeps : List ℚ)
  | scriptEnded (sleeps : List ℚ)

/-- The loop `for attempt in range(1, max_retries + 1)` of
`fetch_clan_data_auto_tables`: on 429, sleep `factor ** attempt` and retry;
on status ≥ 500, the same; on any other non-200 status, raise immediately
with the status and the body truncated to 300 characters; on 200, parse,
flatten and return; on a network exception, sleep and retry; after the
ceiling, raise the retries-exhausted error. -/
def fetchLoop (factor : ℚ) (maxRetries : Nat) :
    List Event → Nat → List ℚ → FetchOutcome
  | events, attempt, sleeps =>
    if attempt > maxRetries then .exhausted sleeps
    else
      match events with
      | [] => .scriptEnded sleeps
      | .netExn :: rest =>
          fetchLoop factor maxRetries rest (attempt + 1)
            (sleeps ++ [factor ^ attempt])
      | .resp r :: rest =>
          if r.status = 429 then
            fetchLoop factor maxRetries rest (attempt + 1)
              (sleeps ++ [factor ^ attempt])
          else if r.status ≥ 500 then
            fetchLoop factor maxRetries rest (attempt + 1)
              (sleeps ++ [factor ^ attempt])
          else if r.status ≠ 200 then
            .hardFail r.status (r.text.take 300) sleeps
          else
            .success (flattenRoot r.body) sleeps

/-- The retry loop started at attempt 1 with no recorded sleeps. -/
def fetchClanData (events : List Event) (factor : ℚ) (maxRetries : Nat) :
    FetchOutcome :=
  fetchLoop factor maxRetries events 1 []

/-- Errors raised before the loop: accessing `.replace` on `None` when the
module-level `USER_TAG` is unset raises `AttributeError`. -/
inductive PyError where
  | attributeError

/-- The function `fetch_clan_data_auto_tables` including its prologue: it
cleans the clan tag, computes `user_tag_clean` from the module-level
`USER_TAG` (raising `AttributeError` when that is `None`), builds the URL,
and only then enters the retry loop. -/
def fetchClanDataAutoTables (userTag : Option (List Char))
    (clanTag : List Char) (events : List Event) (factor : ℚ)
    (maxRetries : Nat) : Except PyError FetchOutcome :=
  match userTag with
  | none => .error .attributeError
  | some _ => .ok (fetchClanData events factor maxRetries)

/- ------------------------------------------------------------------ -/
/-! Claim C5: two rate-limits then success. -/

/-- C5: on the simulated response sequence [429, 429, 200] the Fetcher sleeps
exactly twice, waiting `factor ^ 1` then `factor ^ 2` — strictly increasing
when `factor > 1` — and returns the flattened parse of the 200 body. -/
theorem fetch_429_429_200 (r1 r2 r3 : Response) (factor : ℚ) (m : Nat)
    (h1 : r1.status = 429) (h2 : r2.status = 429) (h3 : r3.status = 200)
    (hm : 3 ≤ m) (hf : 1 < factor) :
    fetchClanData [.resp r1, .resp r2, .resp r3] factor m =
      .success (flattenRoot r3.body) [factor ^ 1, factor ^ 2] ∧
    factor ^ 1 < factor ^ 2 := by
  constructor
  · have g1 : ¬ 1 > m := by omega
    have g2 : ¬ 2 > m := by omega
    have g3 : ¬ 3 > m := by omega
    simp [fetchClanData, fetchLoop, g1, g2, g3, h1, h2, h3]
  · exact pow_lt_pow_right₀ hf (by omega)

/-- C5 witness: with factor 3/2, the script [429, 429, 200 ↦ `{"a": 1}`]
returns the flattened body after sleeping 3/2 then 9/4. -/
theorem fetch_429_429_200_witness :
    ((429 : Nat) = 429 ∧ (429 : Nat) = 429 ∧ (200 : Nat) = 200 ∧
      3 ≤ 5 ∧ (1 : ℚ) < 3 / 2) ∧
    (fetchClanData
        [.resp ⟨429, [], Json.null⟩, .resp ⟨429, [], Json.null⟩,
         .resp ⟨200, [], Json.obj [("a", Json.num 1)]⟩] (3 / 2) 5 =
      .success (flattenRoot (Json.obj [("a", Json.num 1)]))
        [(3 / 2 : ℚ) ^ 1, (3 / 2 : ℚ) ^ 2] ∧
      (3 / 2 : ℚ) ^ 1 < (3 / 2 : ℚ) ^ 2) :=
  ⟨⟨rfl, rfl, rfl, by omega, by norm_num⟩,
    fetch_429_429_200 ⟨429, [], Json.null⟩ ⟨429, [], Json.null⟩
      ⟨200, [], Json.obj [("a", Json.num 1)]⟩ (3 / 2) 5
      rfl rfl rfl (by omega) (by norm_num)⟩

/- ------------------------------------------------------------------ -/
/-! Claim C6: immediate hard failure on other non-200 statuses. -/

/-- C6: on any first response whose status is neither 200 nor 429 and below
500, the Fetcher fails terminally at once — no sleep recorded and the rest of
the script untouched — carrying the status code and the body excerpt
truncated to at most 300 characters. -/
theorem fetch_hard_fail (r : Response) (rest : List Event) (factor : ℚ)
    (m : Nat) (hm : 1 ≤ m) (h200 : r.status ≠ 200) (h429 : r.status ≠ 429)
    (h500 : r.status < 500) :
    fetchClanData (.resp r :: rest) factor m =
      .hardFail r.status (r.text.take 300) [] ∧
    (r.text.take 300).length ≤ 300 := by
  constructor
  · have g1 : ¬ 1 > m := by omega
    have g5 : ¬ r.status ≥ 500 := by omega
    simp [fetchClanData, fetchLoop, g1, g5, h200, h429]
  · simpa using List.length_take_le 300 r.text

/-- C6 witness: a 404 with body `"not found"` fails immediately with status
404 and the whole (≤ 300 character) body as excerpt, leaving later script
events unconsumed. -/
theorem fetch_hard_fail_witness :
    (1 ≤ 5 ∧ (404 : Nat) ≠ 200 ∧ (404 : Nat) ≠ 429 ∧ (404 : Nat) < 500) ∧
    (fetchClanData
        [.resp ⟨404, "not found".data, Json.null⟩,
         .resp ⟨200, [], Json.null⟩] (3 / 2) 5 =
      .hardFail 404 ("not found".data.take 300) [] ∧
      ("not found".data.take 300).length ≤ 300) :=
  ⟨⟨by decide, by decide, by decide, by decide⟩,
    fetch_hard_fail ⟨404, "not found".data, Json.null⟩
      [.resp ⟨200, [], Json.null⟩] (3 / 2) 5
      (by decide) (by decide) (by decide) (by decide)⟩

/- ------------------------------------------------------------------ -/
/-! Claim C7: exhaustion after five server errors. -/

/-- Once the attempt counter passes the ceiling, the loop raises the
retries-exhausted error without consuming any event. -/
theorem fetchLoop_stop (factor : ℚ) (m : Nat) (events : List Event)
    (attempt : Nat) (sleeps : List ℚ) (h : attempt > m) :
    fetchLoop factor m events attempt sleeps = .exhausted sleeps := by
  cases events with
  | nil => simp [fetchLoop, h]
  | cons e rest => cases e <;> simp [fetchLoop, h]

/-- C7: five consecutive 500 responses under the default ceiling of five
attempts make exactly five attempts (sleeping after each), return no result,
and end in the retries-exhausted error — any further scripted events are
never consumed. -/
theorem fetch_exhausted (r1 r2 r3 r4 r5 : Response) (rest : List Event)
    (factor : ℚ)
    (h1 : r1.status = 500) (h2 : r2.status = 500) (h3 : r3.status = 500)
    (h4 : r4.status = 500) (h5 : r5.status = 500) :
    fetchClanData
        ([.resp r1, .resp r2, .resp r3, .resp r4, .resp r5] ++ rest)
        factor 5 =
      .exhausted
        [factor ^ 1, factor ^ 2, factor ^ 3, factor ^ 4, factor ^ 5] := by
  simp [fetchClanData, fetchLoop, h1, h2, h3, h4, h5]
  exact fetchLoop_stop factor 5 rest 6 _ (by omega)

/-- C7 witness: five literal 500 responses followed by a stray 200 end in
exhaustion with the five recorded sleeps. -/
theorem fetch_exhausted_witness :
    ((500 : Nat) = 500) ∧
    fetchClanData
        ([.resp ⟨500, [], Json.null⟩, .resp ⟨500, [], Json.null⟩,
          .resp ⟨500, [], Json.null⟩, .resp ⟨500, [], Json.null⟩,
          .resp ⟨500, [], Json.null⟩] ++ [.resp ⟨200, [], Json.null⟩])
        (3 / 2) 5 =
      .exhausted [(3 / 2 : ℚ) ^ 1, (3 / 2 : ℚ) ^ 2, (3 / 2 : ℚ) ^ 3,
        (3 / 2 : ℚ) ^ 4, (3 / 2 : ℚ) ^ 5] :=
  ⟨rfl,
    fetch_exhausted ⟨500, [], Json.null⟩ ⟨500, [], Json.null⟩
      ⟨500, [], Json.null⟩ ⟨500, [], Json.null⟩ ⟨500, [], Json.null⟩
      [.resp ⟨200, [], Json.null⟩] (3 / 2) rfl rfl rfl rfl rfl⟩

/- ------------------------------------------------------------------ -/
/-! Claim C10: unset `USER_TAG` aborts before any request. -/

/-- C10: with the module-level user identifier unset, the Fetcher raises
`AttributeError` during URL construction — independently of the script, so
before any HTTP request or sleep — even though a set user identifier never
influences the result. -/
theorem fetch_user_tag_none (clanTag : List Char) (events : List Event)
    (factor : ℚ) (m : Nat) :
    fetchClanDataAutoTables none clanTag events factor m =
      .error .attributeError ∧
    (∀ u1 u2 : List Char,
      fetchClanDataAutoTables (some u1) clanTag events factor m =
        fetchClanDataAutoTables (some u2) clanTag events factor m) := by
  exact ⟨rfl, fun u1 u2 => rfl⟩

/- ------------------------------------------------------------------ -/
/-! Claim C8: filename sanitization of `save_tables_to_csv`. -/

/-- Membership in the regex character class `[a-zA-Z0-9_.-]`. -/
def isSafeChar (c : Char) : Bool :=
  ('a' ≤ c ∧ c ≤ 'z') ∨ ('A' ≤ c ∧ c ≤ 'Z') ∨ ('0' ≤ c ∧ c ≤ '9') ∨
    c = '_' ∨ c = '.' ∨ c = '-'

/-- The call `re.sub(r"[^a-zA-Z0-9_.-]", "_", table_name)` from
`save_tables_to_csv`: each character outside the class is replaced by
`'_'`, every other character is kept. -/
def safeName (name : List Char) : List Char :=
  name.map (fun c => if isSafeChar c then c else '_')

/-- C8: sanitization preserves the length and rewrites exactly the characters
outside `[A-Za-z0-9_.-]` to `'_'`, position by position; being a pure
function of the name, it yields the same safe filename on every run. -/
theorem safeName_spec (name : List Char) :
    (safeName name).length = name.length ∧
    ∀ i : Nat, (safeName name)[i]? =
      (name[i]?).map (fun c => if isSafeChar c then c else '_') := by
  refine ⟨by simp [safeName], ?_⟩
  intro i
  simp [safeName, List.getElem?_map]

end ClanInfo
